import Mathlib

/-!
Shallow embedding of the session-scoped persistence layer of the
smart_study_ai repository (`database.py`, `utils.py`), together with
proofs of the specified properties.

The relational store is modelled as explicit in-memory lists of rows;
SQL timestamps (`CURRENT_TIMESTAMP`) are passed in as an explicit
`now : Nat` parameter; exceptions are modelled with `Except`.
-/

namespace SmartStudy

/-- A row of the `sessions` table (`database.py`, `_init_db`). -/
structure Session where
  sid : Nat
  sessionName : String
  createdAt : Nat
  isActive : Bool
  lastAccessed : Nat
  deriving Repr, DecidableEq

/-- A row of the `files` table.  `contentText` is a nullable column,
so it is an `Option String` (`none` models SQL NULL). -/
structure FileRow where
  fid : Nat
  sessionId : Nat
  filename : String
  filepath : String
  filesize : Nat
  contentText : Option String
  uploadTime : Nat
  fileType : String
  deriving Repr, DecidableEq

/-- A row of the `chats` table. -/
structure ChatRow where
  cid : Nat
  sessionId : Nat
  question : String
  answer : String
  createdAt : Nat
  deriving Repr, DecidableEq

/-- The whole store: the three tables plus the AUTOINCREMENT counters
of their `INTEGER PRIMARY KEY AUTOINCREMENT` columns. -/
structure DBState where
  sessions : List Session
  files : List FileRow
  chats : List ChatRow
  nextSessionId : Nat
  nextFileId : Nat
  nextChatId : Nat
  deriving Repr, DecidableEq

/-- The empty store right after `CREATE TABLE`, before
`_ensure_active_session` runs (AUTOINCREMENT starts at 1). -/
def emptyState : DBState :=
  { sessions := [], files := [], chats := [],
    nextSessionId := 1, nextFileId := 1, nextChatId := 1 }

/-- `SELECT id FROM sessions WHERE is_active = 1 LIMIT 1` finds a row. -/
def hasActive (st : DBState) : Bool :=
  st.sessions.any (fun s => s.isActive)

/-- `Database._ensure_active_session`: if no session has `is_active = 1`,
insert `('Default Session', 1)`. -/
def ensure_active_session (now : Nat) (st : DBState) : DBState :=
  if hasActive st then st
  else
    { st with
      sessions := st.sessions ++
        [{ sid := st.nextSessionId, sessionName := "Default Session",
           createdAt := now, isActive := true, lastAccessed := now }],
      nextSessionId := st.nextSessionId + 1 }

/-- `Database._init_db` on a fresh database file: create the (empty)
schema, then ensure one active session exists. -/
def init_db (now : Nat) : DBState :=
  ensure_active_session now emptyState

/-- `UPDATE sessions SET is_active = 0` (first statement of
`create_session` and of `set_active_session`). -/
def deactivateAll (l : List Session) : List Session :=
  l.map (fun s => { s with isActive := false })

/-- `Database.create_session`: deactivate all sessions, insert a new
active one, return `cursor.lastrowid`. -/
def create_session (name : String) (now : Nat) (st : DBState) :
    Nat × DBState :=
  (st.nextSessionId,
   { st with
     sessions := deactivateAll st.sessions ++
       [{ sid := st.nextSessionId, sessionName := name,
          createdAt := now, isActive := true, lastAccessed := now }],
     nextSessionId := st.nextSessionId + 1 })

/-- `UPDATE sessions SET is_active = 1, last_accessed = CURRENT_TIMESTAMP
WHERE id = ?` (second statement of `set_active_session`). -/
def activateId (id now : Nat) (l : List Session) : List Session :=
  l.map (fun s =>
    if s.sid = id then { s with isActive := true, lastAccessed := now }
    else s)

/-- `Database.set_active_session`: deactivate all, activate the given id,
return `cursor.rowcount > 0` of the second UPDATE. -/
def set_active_session (id now : Nat) (st : DBState) : Bool × DBState :=
  let l := deactivateAll st.sessions
  let rowcount := l.countP (fun s => s.sid = id)
  (decide (rowcount > 0), { st with sessions := activateId id now l })

/-- `Database.delete_session`: `DELETE FROM sessions WHERE id = ?`; the
schema's `ON DELETE CASCADE` removes the session's files and chats; if a
row was deleted, run `_ensure_active_session`. -/
def delete_session (id now : Nat) (st : DBState) : Bool × DBState :=
  let rowcount := st.sessions.countP (fun s => s.sid = id)
  let st' : DBState :=
    { st with
      sessions := st.sessions.filter (fun s => ¬ s.sid = id),
      files := st.files.filter (fun f => ¬ f.sessionId = id),
      chats := st.chats.filter (fun c => ¬ c.sessionId = id) }
  if rowcount > 0 then (true, ensure_active_session now st')
  else (false, st)

/-- Effect of `UPDATE sessions SET last_accessed = CURRENT_TIMESTAMP
WHERE id = ?` on one row. -/
def touchOne (id now : Nat) (s : Session) : Session :=
  if s.sid = id then { s with lastAccessed := now } else s

/-- `UPDATE sessions SET last_accessed = CURRENT_TIMESTAMP WHERE id = ?`
(used by `add_file` and `add_chat`). -/
def touchSession (id now : Nat) (l : List Session) : List Session :=
  l.map (touchOne id now)

/-- `Database.add_file`: insert a file row, refresh the owning session's
`last_accessed`, return the new row id. -/
def add_file (sessionId : Nat) (filename filepath : String)
    (filesize : Nat) (contentText : Option String) (fileType : String)
    (now : Nat) (st : DBState) : Nat × DBState :=
  (st.nextFileId,
   { st with
     files := st.files ++
       [{ fid := st.nextFileId, sessionId := sessionId,
          filename := filename, filepath := filepath,
          filesize := filesize, contentText := contentText,
          uploadTime := now, fileType := fileType }],
     nextFileId := st.nextFileId + 1,
     sessions := touchSession sessionId now st.sessions })

/-- `Database.add_chat`: insert a chat row, refresh the owning session's
`last_accessed`, return the new row id. -/
def add_chat (sessionId : Nat) (question answer : String)
    (now : Nat) (st : DBState) : Nat × DBState :=
  (st.nextChatId,
   { st with
     chats := st.chats ++
       [{ cid := st.nextChatId, sessionId := sessionId,
          question := question, answer := answer, createdAt := now }],
     nextChatId := st.nextChatId + 1,
     sessions := touchSession sessionId now st.sessions })

/-- `Database.get_file_content`: `SELECT content_text FROM files WHERE
id = ?`; returns the stored (possibly NULL) value if a row exists, the
Python string `""` otherwise.  The result is an `Option String` because
a stored NULL comes back as Python `None`. -/
def get_file_content (fileId : Nat) (st : DBState) : Option String :=
  match st.files.find? (fun f => f.fid = fileId) with
  | some f => f.contentText
  | none => some ""

/-- The rows selected by `get_session_content`'s query:
`SELECT content_text FROM files WHERE session_id = ? AND content_text
IS NOT NULL AND content_text != ''`, in table order. -/
def sessionTexts (sessionId : Nat) (st : DBState) : List String :=
  st.files.filterMap (fun f =>
    if f.sessionId = sessionId then
      match f.contentText with
      | some t => if t = "" then none else some t
      | none => none
    else none)

/-- `Database.get_session_content`: `"\n\n".join(contents)`. -/
def get_session_content (sessionId : Nat) (st : DBState) : String :=
  String.intercalate "\n\n" (sessionTexts sessionId st)

/-- `Database.get_cursor`: run `work` against the connection's committed
state; on normal return `conn.commit()` makes the new state the
committed one and the result is returned; on an exception
`conn.rollback()` keeps the committed state unchanged and the same
exception is re-raised (`raise e`). -/
def get_cursor {ε α : Type} (work : DBState → Except ε (α × DBState))
    (st : DBState) : Except ε α × DBState :=
  match work st with
  | .ok (a, st') => (.ok a, st')
  | .error e => (.error e, st)

/-- Outcomes of the operating-system calls made by `clear_all_data`
(`os.remove`, `os.makedirs`, and the initial SELECT); `true` means the
call succeeds, `false` that it raises. -/
structure ResetEnv where
  selectPathsOk : Bool
  removeDbOk : Bool
  removeFileOk : String → Bool
  makedirsOk : Bool

/-- `SELECT filepath FROM files` in `clear_all_data`. -/
def listFilePaths (st : DBState) : List String :=
  st.files.map (fun f => f.filepath)

/-- One `os.remove(filepath)` call inside `clear_all_data`'s loop. -/
def remove_one (env : ResetEnv) (p : String) : Except String Unit :=
  if env.removeFileOk p then .ok () else .error ("remove failed: " ++ p)

/-- The `for filepath in file_paths` loop of `clear_all_data`: each
`os.remove` sits in its own `try/except: pass`, so a failure is
swallowed and the loop continues. -/
def remove_all (env : ResetEnv) : List String → Unit
  | [] => ()
  | p :: ps =>
    match remove_one env p with
    | .ok _ => remove_all env ps
    | .error _ => remove_all env ps

/-- `Database.clear_all_data`: list the stored file paths, close the
connection, delete the database file, best-effort delete each physical
file, recreate the uploads directory, re-run `_init_db`; the whole body
is inside `try ... except Exception: return False`, so the function is
total and returns a `Bool` instead of raising. -/
def clear_all_data (env : ResetEnv) (now : Nat) (st : DBState) :
    Bool × DBState :=
  if ¬ env.selectPathsOk then (false, st)
  else if ¬ env.removeDbOk then (false, st)
  else
    let _ := remove_all env (listFilePaths st)
    if ¬ env.makedirsOk then (false, emptyState)
    else (true, init_db now)

/-- The text-extraction helpers `extract_pdf` / `extract_txt` /
`extract_docx` as opaque collaborators of `extract_text_from_file`:
each may produce text or raise (modelled as `Except.error`), which is
what `extract_text_from_file`'s own `try` guards against. -/
structure ExtractEnv where
  extract_pdf : String → Except String String
  extract_txt : String → Except String String
  extract_docx : String → Except String String

/-- Python's `str.lower()` (ASCII case folding, which is all the call
sites use: declared MIME types and extensions are ASCII). -/
def strLower (s : String) : String :=
  String.mk (s.toList.map Char.toLower)

/-- Python's `str.endswith(suffix)`. -/
def strEndsWith (s suffix : String) : Bool :=
  suffix.toList.isSuffixOf s.toList

/-- Python's `needle in hay` substring test. -/
def strContains (hay needle : String) : Bool :=
  (List.range (hay.toList.length + 1)).any
    (fun i => needle.toList.isPrefixOf (hay.toList.drop i))

/-- The dispatch in `extract_text_from_file`, before its `try/except`
is applied: branch on declared type / filename suffix exactly as the
source's `if/elif` chain does, returning an `Unsupported file format:`
message as ordinary content when nothing matches. -/
def extract_dispatch (env : ExtractEnv) (path fileType : String) :
    Except String String :=
  if strContains (strLower fileType) "pdf" || strEndsWith path ".pdf" then
    env.extract_pdf path
  else if strContains (strLower fileType) "text" ||
      strEndsWith path ".txt" then
    env.extract_txt path
  else if strContains (strLower fileType) "word" ||
      strEndsWith path ".docx" then
    env.extract_docx path
  else if strEndsWith path ".pdf" then env.extract_pdf path
  else if strEndsWith path ".txt" then env.extract_txt path
  else if strEndsWith path ".docx" then env.extract_docx path
  else .ok ("Unsupported file format: " ++ fileType)

/-- `extract_text_from_file`: the dispatch wrapped in
`try ... except Exception as e: return f"Error extracting text: ..."`,
so the entry point always returns a plain string. -/
def extract_text_from_file (env : ExtractEnv) (path fileType : String) :
    String :=
  match extract_dispatch env path fileType with
  | .ok t => t
  | .error e => "Error extracting text: " ++ e

/-- The whitespace class used by `clean_text`'s `re.sub(r'\s+', ' ')`
and by `str.strip()` (the ASCII part; the Unicode extension of `\s` is
irrelevant to the properties proved here). -/
def isSpace (c : Char) : Bool :=
  c = ' ' || c = '\t' || c = '\n' || c = '\r' || c = '\x0b' || c = '\x0c'

/-- `re.sub(p+, rep, ·)` for a one-character-class pattern: every
maximal run of characters satisfying `p` is replaced by the single
character `rep`.  The flag records whether the previous character was
inside a run. -/
def subRuns (p : Char → Bool) (rep : Char) : Bool → List Char → List Char
  | _, [] => []
  | inRun, c :: cs =>
    if p c then
      if inRun then subRuns p rep true cs
      else rep :: subRuns p rep true cs
    else c :: subRuns p rep false cs

/-- Python `str.strip()`: drop leading and trailing whitespace. -/
def stripChars (l : List Char) : List Char :=
  ((l.dropWhile isSpace).reverse.dropWhile isSpace).reverse

/-- `utils.clean_text`: `if not text: return ""`, remove NUL bytes,
collapse whitespace runs to one space, collapse newline runs to one
newline, strip. -/
def clean_text (text : String) : String :=
  if text = "" then ""
  else
    String.mk (stripChars
      (subRuns (fun c => c = '\n') '\n' false
        (subRuns isSpace ' ' false
          (text.toList.filter (fun c => ¬ c = '\x00')))))

/-- Number of sessions with `is_active = 1`. -/
def activeCount (st : DBState) : Nat :=
  st.sessions.countP (fun s => s.isActive)

/-- A session with the given id exists in the store. -/
def sessionExists (st : DBState) (id : Nat) : Prop :=
  ∃ s ∈ st.sessions, s.sid = id

/-- One call of the session-lifecycle API. -/
inductive Op where
  | create (name : String) (now : Nat)
  | setActive (id : Nat) (now : Nat)
  | deleteS (id : Nat) (now : Nat)

/-- The state after one lifecycle call. -/
def applyOp (st : DBState) : Op → DBState
  | .create name now => (create_session name now st).2
  | .setActive id now => (set_active_session id now st).2
  | .deleteS id now => (delete_session id now st).2

/-- The state after a sequence of lifecycle calls. -/
def runOps (st : DBState) : List Op → DBState
  | [] => st
  | op :: ops => runOps (applyOp st op) ops

/-- A call sequence in which every `set_active_session` targets a
session that exists at the moment of the call. -/
def goodOps (st : DBState) : List Op → Prop
  | [] => True
  | op :: ops =>
    (match op with
     | .setActive id _ => sessionExists st id
     | _ => True) ∧ goodOps (applyOp st op) ops

/-- Structural well-formedness maintained by the store: primary keys of
`sessions` are distinct and below the AUTOINCREMENT counter. -/
def WF (st : DBState) : Prop :=
  (st.sessions.map Session.sid).Nodup ∧
  ∀ s ∈ st.sessions, s.sid < st.nextSessionId

/-! ## Theorems -/

/-- C3: the transaction wrapper commits and returns the result on
normal completion, and on an exception rolls back (the committed state
is unchanged) and re-raises the same exception — nothing is
swallowed. -/
theorem get_cursor_commit_or_rollback {ε α : Type}
    (work : DBState → Except ε (α × DBState)) (st : DBState) :
    (∀ a st', work st = .ok (a, st') →
      get_cursor work st = (Except.ok a, st')) ∧
    (∀ e, work st = .error e →
      get_cursor work st = (Except.error e, st)) := by
  constructor
  · intro a st' h
    simp [get_cursor, h]
  · intro e h
    simp [get_cursor, h]

theorem get_cursor_commit_or_rollback_witness :
    get_cursor (fun st => (Except.ok (7, st) : Except String (Nat × DBState)))
      emptyState = (Except.ok 7, emptyState) ∧
    get_cursor (fun _ => (Except.error "boom" : Except String (Nat × DBState)))
      emptyState = (Except.error "boom", emptyState) :=
  ⟨(get_cursor_commit_or_rollback
      (fun st => (Except.ok (7, st) : Except String (Nat × DBState)))
      emptyState).1 7 emptyState rfl,
   (get_cursor_commit_or_rollback
      (fun _ => (Except.error "boom" : Except String (Nat × DBState)))
      emptyState).2 "boom" rfl⟩

/-- C6: `get_file_content` returns the stored `content_text` of the row
with the given id, and the Python string `""` when no such row
exists. -/
theorem get_file_content_spec (st : DBState) (id : Nat) :
    (st.files.find? (fun f => f.fid = id) = none →
      get_file_content id st = some "") ∧
    (∀ f, st.files.find? (fun f => f.fid = id) = some f →
      get_file_content id st = f.contentText) := by
  constructor
  · intro h
    simp [get_file_content, h]
  · intro f h
    simp [get_file_content, h]

theorem get_file_content_spec_witness :
    get_file_content 1 emptyState = some "" :=
  (get_file_content_spec emptyState 1).1 rfl

/-- C5: `set_active_session id` deactivates every session, activates
the one with the given id (refreshing its `last_accessed`) when it
exists, and returns `true` exactly when a session with that id
exists. -/
theorem set_active_session_spec (st : DBState) (id now : Nat) :
    ((set_active_session id now st).1 = true ↔ sessionExists st id) ∧
    (set_active_session id now st).2.sessions =
      st.sessions.map (fun s =>
        if s.sid = id then
          { s with isActive := true, lastAccessed := now }
        else { s with isActive := false }) := by
  constructor
  · simp only [set_active_session, decide_eq_true_eq, sessionExists,
      deactivateAll, List.countP_map, gt_iff_lt]
    rw [List.countP_pos_iff]
    simp [Function.comp]
  · simp only [set_active_session, activateId, deactivateAll,
      List.map_map]
    apply List.map_congr_left
    intro s _
    by_cases h : s.sid = id <;> simp [Function.comp, h]

theorem set_active_session_spec_witness :
    ((set_active_session 1 5 (init_db 0)).1 = true ↔
      sessionExists (init_db 0) 1) ∧
    (set_active_session 1 5 (init_db 0)).2.sessions =
      (init_db 0).sessions.map (fun s =>
        if s.sid = 1 then { s with isActive := true, lastAccessed := 5 }
        else { s with isActive := false }) :=
  set_active_session_spec (init_db 0) 1 5

/-- The rows selected by `get_session_content`'s WHERE clause, written
as filter-then-project instead of `filterMap`. -/
theorem sessionTexts_eq_filter (id : Nat) (st : DBState) :
    sessionTexts id st =
      (st.files.filter (fun f => f.sessionId = id ∧
          ¬ f.contentText = none ∧ ¬ f.contentText = some "")).map
        (fun f => f.contentText.getD "") := by
  unfold sessionTexts
  induction st.files with
  | nil => rfl
  | cons f fs ih =>
    simp only [List.filterMap_cons, List.filter_cons]
    by_cases h1 : f.sessionId = id
    · cases hct : f.contentText with
      | none => simp [h1, hct, ih]
      | some t =>
        by_cases h2 : t = "" <;> simp [h1, hct, h2, ih]
    · simp [h1, ih]

/-- C4: `get_session_content` joins with the two-character separator
`"\n\n"` the texts of exactly those files of the session whose
`content_text` is non-NULL and non-empty, and returns `""` when no
such file exists (in particular when the session has no files). -/
theorem get_session_content_spec (st : DBState) (id : Nat) :
    ((∀ f ∈ st.files, f.sessionId = id →
        f.contentText = none ∨ f.contentText = some "") →
      get_session_content id st = "") ∧
    get_session_content id st =
      String.intercalate "\n\n"
        ((st.files.filter (fun f => f.sessionId = id ∧
            ¬ f.contentText = none ∧ ¬ f.contentText = some "")).map
          (fun f => f.contentText.getD "")) ∧
    ("\n\n" : String).length = 2 := by
  refine ⟨?_, ?_, rfl⟩
  · intro h
    have hnil : sessionTexts id st = [] := by
      unfold sessionTexts
      rw [List.filterMap_eq_nil_iff]
      intro f hf
      by_cases h1 : f.sessionId = id
      · rcases h f hf h1 with hc | hc <;> simp [h1, hc]
      · simp [h1]
    simp [get_session_content, hnil]
    rfl
  · unfold get_session_content
    rw [sessionTexts_eq_filter]

theorem get_session_content_spec_witness :
    get_session_content 1 emptyState = "" :=
  (get_session_content_spec emptyState 1).1 (by intro f hf; cases hf)

/-- C7: `clear_all_data` reduces every failure of a non-swallowed step
to a `false` return (the function is total — the Lean type `Bool`
models that no exception escapes); failures of the individual physical
`os.remove(filepath)` calls (the `removeFileOk` field, arbitrary here)
never affect the result; on success the store is freshly initialized
with a single default active session and no files or chats. -/
theorem clear_all_data_spec (env : ResetEnv) (now : Nat) (st : DBState) :
    ((clear_all_data env now st).1 = true ↔
      env.selectPathsOk = true ∧ env.removeDbOk = true ∧
        env.makedirsOk = true) ∧
    ((clear_all_data env now st).1 = true →
      (clear_all_data env now st).2 = init_db now) ∧
    (init_db now).sessions =
      [{ sid := 1, sessionName := "Default Session", createdAt := now,
         isActive := true, lastAccessed := now }] ∧
    (init_db now).files = [] ∧ (init_db now).chats = [] := by
  refine ⟨?_, ?_, ?_, rfl, rfl⟩
  · unfold clear_all_data
    by_cases h1 : env.selectPathsOk <;>
      by_cases h2 : env.removeDbOk <;>
        by_cases h3 : env.makedirsOk <;> simp [h1, h2, h3]
  · unfold clear_all_data
    by_cases h1 : env.selectPathsOk <;>
      by_cases h2 : env.removeDbOk <;>
        by_cases h3 : env.makedirsOk <;> simp [h1, h2, h3]
  · simp [init_db, ensure_active_session, hasActive, emptyState]

theorem clear_all_data_spec_witness :
    (clear_all_data
      { selectPathsOk := true, removeDbOk := true,
        removeFileOk := fun _ => false, makedirsOk := true } 5
      (init_db 0)).1 = true :=
  (clear_all_data_spec
    { selectPathsOk := true, removeDbOk := true,
      removeFileOk := fun _ => false, makedirsOk := true } 5
    (init_db 0)).1.mpr ⟨rfl, rfl, rfl⟩

/-- C9: the extraction entry point is total (its Lean type is plain
`String`: no exception propagates); when the chosen extractor raises,
the exception is converted to the `Error extracting text:` string, and
when neither the declared type nor the filename suffix matches a
supported format, the `Unsupported file format:` string is returned as
if it were content. -/
theorem extract_text_from_file_spec (env : ExtractEnv)
    (path fileType : String) :
    (∀ e, extract_dispatch env path fileType = .error e →
      extract_text_from_file env path fileType =
        "Error extracting text: " ++ e) ∧
    ((strContains (strLower fileType) "pdf" = false ∧
      strEndsWith path ".pdf" = false ∧
      strContains (strLower fileType) "text" = false ∧
      strEndsWith path ".txt" = false ∧
      strContains (strLower fileType) "word" = false ∧
      strEndsWith path ".docx" = false) →
      extract_text_from_file env path fileType =
        "Unsupported file format: " ++ fileType) := by
  constructor
  · intro e h
    simp [extract_text_from_file, h]
  · rintro ⟨h1, h2, h3, h4, h5, h6⟩
    simp [extract_text_from_file, extract_dispatch, h1, h2, h3, h4, h5, h6]

theorem extract_text_from_file_spec_witness :
    extract_text_from_file
      { extract_pdf := fun _ => Except.error "boom",
        extract_txt := fun _ => Except.error "boom",
        extract_docx := fun _ => Except.error "boom" }
      "notes.bin" "bin" = "Unsupported file format: " ++ "bin" ∧
    extract_text_from_file
      { extract_pdf := fun _ => Except.error "boom",
        extract_txt := fun _ => Except.error "boom",
        extract_docx := fun _ => Except.error "boom" }
      "notes.pdf" "pdf" = "Error extracting text: " ++ "boom" :=
  ⟨(extract_text_from_file_spec
      { extract_pdf := fun _ => Except.error "boom",
        extract_txt := fun _ => Except.error "boom",
        extract_docx := fun _ => Except.error "boom" }
      "notes.bin" "bin").2
      ⟨by decide, by decide, by decide, by decide, by decide, by decide⟩,
   (extract_text_from_file_spec
      { extract_pdf := fun _ => Except.error "boom",
        extract_txt := fun _ => Except.error "boom",
        extract_docx := fun _ => Except.error "boom" }
      "notes.pdf" "pdf").1 "boom" rfl⟩

/-- C8: `add_file` and `add_chat` append exactly one row each and, in
the same transaction, set the owning session's `last_accessed` to the
current time — which, under a monotone clock, is ≥ its previous value —
while every other session is mapped to itself. -/
theorem add_file_add_chat_touch (st : DBState) (sid : Nat)
    (fn fp : String) (sz : Nat) (ct : Option String) (ft : String)
    (q a : String) (now : Nat)
    (hmono : ∀ s ∈ st.sessions, s.lastAccessed ≤ now) :
    (add_file sid fn fp sz ct ft now st).2.files =
      st.files ++ [⟨st.nextFileId, sid, fn, fp, sz, ct, now, ft⟩] ∧
    (add_chat sid q a now st).2.chats =
      st.chats ++ [⟨st.nextChatId, sid, q, a, now⟩] ∧
    (add_file sid fn fp sz ct ft now st).2.sessions =
      touchSession sid now st.sessions ∧
    (add_chat sid q a now st).2.sessions =
      touchSession sid now st.sessions ∧
    touchSession sid now st.sessions =
      st.sessions.map (touchOne sid now) ∧
    (∀ s ∈ st.sessions, ¬ s.sid = sid → touchOne sid now s = s) ∧
    (∀ s ∈ st.sessions, s.sid = sid →
      (touchOne sid now s).lastAccessed = now ∧
      s.lastAccessed ≤ (touchOne sid now s).lastAccessed) := by
  refine ⟨rfl, rfl, rfl, rfl, rfl, ?_, ?_⟩
  · intro s _ h
    simp [touchOne, h]
  · intro s hs h
    refine ⟨by simp [touchOne, h], ?_⟩
    simp [touchOne, h]
    exact hmono s hs

theorem add_file_add_chat_touch_witness :
    (add_file 1 "a.txt" "data/uploads/a.txt" 3 (some "hi") "text/plain" 5
      (init_db 0)).2.files =
      (init_db 0).files ++
        [⟨(init_db 0).nextFileId, 1, "a.txt", "data/uploads/a.txt", 3,
          some "hi", 5, "text/plain"⟩] :=
  (add_file_add_chat_touch (init_db 0) 1 "a.txt" "data/uploads/a.txt" 3
    (some "hi") "text/plain" "q" "ans" 5 (by decide)).1

/-! ### Lemmas on the single-active-session invariant -/

theorem countP_isActive_deactivateAll (l : List Session) :
    (deactivateAll l).countP (fun s => s.isActive) = 0 := by
  simp [deactivateAll, List.countP_map, Function.comp]

theorem sid_map_deactivateAll (l : List Session) :
    (deactivateAll l).map Session.sid = l.map Session.sid := by
  simp [deactivateAll, List.map_map]

theorem sid_map_activateId (id now : Nat) (l : List Session) :
    (activateId id now l).map Session.sid = l.map Session.sid := by
  simp only [activateId, List.map_map]
  apply List.map_congr_left
  intro s _
  by_cases h : s.sid = id <;> simp [Function.comp, h]

theorem sid_map_touchSession (id now : Nat) (l : List Session) :
    (touchSession id now l).map Session.sid = l.map Session.sid := by
  simp only [touchSession, List.map_map]
  apply List.map_congr_left
  intro s _
  by_cases h : s.sid = id <;> simp [Function.comp, touchOne, h]

theorem countP_sid_unique (l : List Session) (id : Nat)
    (hnd : (l.map Session.sid).Nodup) (hex : ∃ s ∈ l, s.sid = id) :
    l.countP (fun s => s.sid = id) = 1 := by
  induction l with
  | nil => simp at hex
  | cons c l ih =>
    simp only [List.map_cons, List.nodup_cons] at hnd
    by_cases h : c.sid = id
    · rw [List.countP_cons_of_pos _ _ (by simp [h])]
      have hz : l.countP (fun s => s.sid = id) = 0 := by
        rw [List.countP_eq_zero]
        intro s hs
        simp only [decide_eq_true_eq]
        intro hsid
        exact hnd.1 (h ▸ hsid ▸ List.mem_map_of_mem Session.sid hs)
      omega
    · rw [List.countP_cons_of_neg _ _ (by simp [h])]
      rcases hex with ⟨s, hs, hsid⟩
      rcases List.mem_cons.mp hs with rfl | hs
      · exact absurd hsid h
      · exact ih hnd.2 ⟨s, hs, hsid⟩

theorem activeCount_activateId (id now : Nat) (l : List Session)
    (hall : l.countP (fun s => s.isActive) = 0) :
    (activateId id now l).countP (fun s => s.isActive) =
      l.countP (fun s => s.sid = id) := by
  rw [List.countP_eq_zero] at hall
  simp only [activateId, List.countP_map]
  apply List.countP_congr
  intro s hs
  by_cases h : s.sid = id
  · simp [Function.comp, h]
  · simp only [Function.comp, h, if_neg h]
    have := hall s hs
    simp_all

theorem hasActive_iff (st : DBState) :
    hasActive st = true ↔ 0 < activeCount st := by
  rw [hasActive, activeCount, List.any_eq_true, List.countP_pos_iff]

theorem ensure_activeCount (now : Nat) (st : DBState)
    (hle : activeCount st ≤ 1) :
    activeCount (ensure_active_session now st) = 1 := by
  by_cases h : hasActive st = true
  · have := (hasActive_iff st).mp h
    simp only [ensure_active_session, h, if_true]
    omega
  · have h0 : activeCount st = 0 := by
      rcases Nat.eq_zero_or_pos (activeCount st) with h0 | hp
      · exact h0
      · exact absurd ((hasActive_iff st).mpr hp) h
    simp only [ensure_active_session, h, if_false, Bool.false_eq_true]
    simp only [activeCount, List.countP_append] at h0 ⊢
    simp [h0]

theorem ensure_exists_active (now : Nat) (st : DBState) :
    ∃ s ∈ (ensure_active_session now st).sessions, s.isActive = true := by
  by_cases h : hasActive st = true
  · simp only [ensure_active_session, h, if_true]
    rw [hasActive, List.any_eq_true] at h
    rcases h with ⟨s, hs, hact⟩
    exact ⟨s, hs, by simpa using hact⟩
  · refine ⟨⟨st.nextSessionId, "Default Session", now, true, now⟩, ?_, rfl⟩
    simp [ensure_active_session, h]

theorem mem_ensure_sessions (now : Nat) (st : DBState) (s : Session)
    (hs : s ∈ (ensure_active_session now st).sessions) :
    s ∈ st.sessions ∨
      s = ⟨st.nextSessionId, "Default Session", now, true, now⟩ := by
  unfold ensure_active_session at hs
  split at hs
  · exact Or.inl hs
  · simp only at hs
    rcases List.mem_append.mp hs with h | h
    · exact Or.inl h
    · exact Or.inr (List.mem_singleton.mp h)

theorem ensure_files (now : Nat) (st : DBState) :
    (ensure_active_session now st).files = st.files := by
  unfold ensure_active_session
  split <;> rfl

theorem ensure_chats (now : Nat) (st : DBState) :
    (ensure_active_session now st).chats = st.chats := by
  unfold ensure_active_session
  split <;> rfl

theorem WF_iff (st : DBState) :
    WF st ↔ (st.sessions.map Session.sid).Nodup ∧
      ∀ a ∈ st.sessions.map Session.sid, a < st.nextSessionId := by
  unfold WF
  constructor
  · rintro ⟨hnd, hlt⟩
    refine ⟨hnd, ?_⟩
    intro a ha
    rcases List.mem_map.mp ha with ⟨s, hs, rfl⟩
    exact hlt s hs
  · rintro ⟨hnd, hlt⟩
    exact ⟨hnd, fun s hs => hlt s.sid (List.mem_map_of_mem Session.sid hs)⟩

theorem nodup_bound_append (sids : List Nat) (next : Nat)
    (hnd : sids.Nodup) (hlt : ∀ a ∈ sids, a < next) :
    (sids ++ [next]).Nodup ∧ ∀ a ∈ sids ++ [next], a < next + 1 := by
  constructor
  · refine List.Nodup.append hnd (List.nodup_singleton next) ?_
    intro a ha hb
    simp only [List.mem_singleton] at hb
    subst hb
    exact absurd (hlt _ ha) (lt_irrefl _)
  · intro a ha
    rcases List.mem_append.mp ha with h | h
    · exact Nat.lt_succ_of_lt (hlt a h)
    · simp only [List.mem_singleton] at h
      omega

theorem WF_ensure (now : Nat) (st : DBState) (hwf : WF st) :
    WF (ensure_active_session now st) := by
  by_cases h : hasActive st = true
  · simpa [ensure_active_session, h] using hwf
  · rw [WF_iff] at hwf ⊢
    simp only [ensure_active_session, h, Bool.false_eq_true, if_false,
      List.map_append, List.map_cons, List.map_nil]
    exact nodup_bound_append _ _ hwf.1 hwf.2

theorem WF_create (name : String) (now : Nat) (st : DBState)
    (hwf : WF st) : WF (create_session name now st).2 := by
  rw [WF_iff] at hwf ⊢
  simp only [create_session, List.map_append, sid_map_deactivateAll,
    List.map_cons, List.map_nil]
  exact nodup_bound_append _ _ hwf.1 hwf.2

theorem WF_setActive (id now : Nat) (st : DBState) (hwf : WF st) :
    WF (set_active_session id now st).2 := by
  rw [WF_iff] at hwf ⊢
  simp only [set_active_session, sid_map_activateId,
    sid_map_deactivateAll]
  exact hwf

theorem WF_delete (id now : Nat) (st : DBState) (hwf : WF st) :
    WF (delete_session id now st).2 := by
  simp only [delete_session]
  split
  · apply WF_ensure
    rw [WF_iff] at hwf ⊢
    constructor
    · exact hwf.1.sublist ((List.filter_sublist _).map Session.sid)
    · intro a ha
      exact hwf.2 a (((List.filter_sublist _).map Session.sid).mem ha)
  · exact hwf

theorem WF_applyOp (st : DBState) (op : Op) (hwf : WF st) :
    WF (applyOp st op) := by
  cases op with
  | create name now => exact WF_create name now st hwf
  | setActive id now => exact WF_setActive id now st hwf
  | deleteS id now => exact WF_delete id now st hwf

theorem activeCount_create (name : String) (now : Nat) (st : DBState) :
    activeCount (create_session name now st).2 = 1 := by
  simp only [create_session, activeCount, List.countP_append]
  rw [countP_isActive_deactivateAll]
  simp

theorem activeCount_setActive (id now : Nat) (st : DBState)
    (hwf : WF st) (hex : sessionExists st id) :
    activeCount (set_active_session id now st).2 = 1 := by
  simp only [set_active_session, activeCount]
  rw [activeCount_activateId _ _ _ (countP_isActive_deactivateAll _)]
  have hd : (deactivateAll st.sessions).countP (fun s => s.sid = id) =
      st.sessions.countP (fun s => s.sid = id) := by
    simp only [deactivateAll, List.countP_map]
    exact List.countP_congr (fun s _ => Iff.rfl)
  rw [hd]
  exact countP_sid_unique _ _ hwf.1 hex

theorem activeCount_delete (id now : Nat) (st : DBState)
    (h1 : activeCount st = 1) :
    activeCount (delete_session id now st).2 = 1 := by
  simp only [delete_session]
  split
  · apply ensure_activeCount
    calc (st.sessions.filter (fun s => ¬ s.sid = id)).countP
          (fun s => s.isActive)
        ≤ st.sessions.countP (fun s => s.isActive) :=
          (List.filter_sublist _).countP_le _
      _ = 1 := h1
  · exact h1

theorem step_one_active (st : DBState) (op : Op) (hwf : WF st)
    (h1 : activeCount st = 1)
    (hguard : match op with
      | .setActive id _ => sessionExists st id
      | _ => True) :
    activeCount (applyOp st op) = 1 := by
  cases op with
  | create name now => exact activeCount_create name now st
  | setActive id now => exact activeCount_setActive id now st hwf hguard
  | deleteS id now => exact activeCount_delete id now st h1

theorem good_run (ops : List Op) : ∀ st : DBState, WF st →
    activeCount st = 1 → goodOps st ops →
    activeCount (runOps st ops) = 1 := by
  induction ops with
  | nil => intro st _ h1 _; exact h1
  | cons op ops ih =>
    intro st hwf h1 hg
    obtain ⟨hop, hg'⟩ := hg
    exact ih _ (WF_applyOp st op hwf) (step_one_active st op hwf h1 hop)
      hg'

theorem goodOps_append_left (pre : List Op) : ∀ (suf : List Op)
    (st : DBState), goodOps st (pre ++ suf) → goodOps st pre := by
  induction pre with
  | nil => intro _ _ _; trivial
  | cons op pre ih =>
    intro suf st h
    obtain ⟨hop, h'⟩ := h
    exact ⟨hop, ih suf _ h'⟩

theorem WF_init (n0 : Nat) : WF (init_db n0) := by
  constructor
  · simp [init_db, ensure_active_session, hasActive, emptyState]
  · intro s hs
    simp only [init_db, ensure_active_session, hasActive, emptyState,
      List.any_nil, Bool.false_eq_true, if_false, List.nil_append,
      List.mem_singleton] at hs ⊢
    subst hs
    simp

theorem activeCount_init (n0 : Nat) : activeCount (init_db n0) = 1 := by
  simp [activeCount, init_db, ensure_active_session, hasActive,
    emptyState]

/-- C1 (amended): starting from an initialized store, along any
sequence of `create_session` / `set_active_session` / `delete_session`
calls in which every `set_active_session` targets a session existing at
the moment of the call, exactly one session is active after each call
(here: after every prefix of the sequence). -/
theorem one_active_after_each_good_call (n0 : Nat) (pre suf : List Op)
    (hg : goodOps (init_db n0) (pre ++ suf)) :
    activeCount (runOps (init_db n0) pre) = 1 :=
  good_run pre (init_db n0) (WF_init n0) (activeCount_init n0)
    (goodOps_append_left pre suf _ hg)

theorem one_active_after_each_good_call_witness :
    activeCount (runOps (init_db 0) [Op.create "A" 1]) = 1 :=
  one_active_after_each_good_call 0 [Op.create "A" 1] []
    (by exact ⟨True.intro, True.intro⟩)

/-- C1 counterexample: on the initialized store (exactly one active
session, with id 1), the single call `set_active_session 99` — id 99
does not exist — deactivates every session and activates none, leaving
zero active sessions, so the claimed invariant "never zero" fails. -/
theorem one_active_counterexample :
    activeCount (runOps (init_db 0) [Op.setActive 99 1]) = 0 ∧
    ¬ activeCount (runOps (init_db 0) [Op.setActive 99 1]) = 1 := by
  constructor <;> decide

/-- C2: deleting an existing session returns `true`, removes exactly
the file rows and chat rows owned by it (the cascade), leaves no
session with that id, and afterwards some session with
`is_active = 1` exists. -/
theorem delete_session_cascade (st : DBState) (id now : Nat)
    (hwf : WF st) (hex : sessionExists st id) :
    (delete_session id now st).1 = true ∧
    (delete_session id now st).2.files =
      st.files.filter (fun f => ¬ f.sessionId = id) ∧
    (delete_session id now st).2.chats =
      st.chats.filter (fun c => ¬ c.sessionId = id) ∧
    (∀ s ∈ (delete_session id now st).2.sessions, ¬ s.sid = id) ∧
    (∃ s ∈ (delete_session id now st).2.sessions, s.isActive = true) := by
  have hpos : 0 < st.sessions.countP (fun s => s.sid = id) := by
    rw [List.countP_pos_iff]
    rcases hex with ⟨s, hs, h⟩
    exact ⟨s, hs, by simp [h]⟩
  simp only [delete_session, gt_iff_lt, hpos, if_true]
  refine ⟨by simp, ensure_files _ _, ensure_chats _ _, ?_,
    ensure_exists_active _ _⟩
  intro s hs
  have hid_lt : id < st.nextSessionId := by
    rcases hex with ⟨s0, hs0, h0⟩
    exact h0 ▸ hwf.2 s0 hs0
  rcases mem_ensure_sessions _ _ s hs with h | h
  · exact of_decide_eq_true (List.mem_filter.mp h).2
  · subst h
    simp only
    omega

theorem delete_session_cascade_witness :
    (delete_session 1 7 (init_db 0)).1 = true :=
  (delete_session_cascade (init_db 0) 1 7 (WF_init 0)
    ⟨⟨1, "Default Session", 0, true, 0⟩, by decide, rfl⟩).1

/-! ### Lemmas on `clean_text` -/

theorem subRuns_cons_pos_true {p : Char → Bool} {d : Char}
    (rep : Char) (ds : List Char) (hd : p d = true) :
    subRuns p rep true (d :: ds) = subRuns p rep true ds := by
  simp [subRuns, hd]

theorem subRuns_cons_pos_false {p : Char → Bool} {d : Char}
    (rep : Char) (ds : List Char) (hd : p d = true) :
    subRuns p rep false (d :: ds) = rep :: subRuns p rep true ds := by
  simp [subRuns, hd]

theorem subRuns_cons_neg {p : Char → Bool} {d : Char}
    (rep : Char) (b : Bool) (ds : List Char) (hd : p d = false) :
    subRuns p rep b (d :: ds) = d :: subRuns p rep false ds := by
  simp [subRuns, hd]

theorem mem_subRuns {p : Char → Bool} {rep : Char} :
    ∀ {b : Bool} {l : List Char} {c : Char}, c ∈ subRuns p rep b l →
      c = rep ∨ (c ∈ l ∧ p c = false) := by
  intro b l
  induction l generalizing b with
  | nil =>
    intro c hc
    simp [subRuns] at hc
  | cons d ds ih =>
    intro c hc
    by_cases hd : p d = true
    · cases b with
      | true =>
        rw [subRuns_cons_pos_true rep ds hd] at hc
        rcases ih hc with h | h
        · exact Or.inl h
        · exact Or.inr ⟨List.mem_cons_of_mem d h.1, h.2⟩
      | false =>
        rw [subRuns_cons_pos_false rep ds hd] at hc
        rcases List.mem_cons.mp hc with rfl | hc
        · exact Or.inl rfl
        · rcases ih hc with h | h
          · exact Or.inl h
          · exact Or.inr ⟨List.mem_cons_of_mem d h.1, h.2⟩
    · rw [subRuns_cons_neg rep b ds (Bool.eq_false_iff.mpr hd)] at hc
      rcases List.mem_cons.mp hc with rfl | hc
      · exact Or.inr ⟨List.mem_cons_self _ _,
          Bool.eq_false_iff.mpr hd⟩
      · rcases ih hc with h | h
        · exact Or.inl h
        · exact Or.inr ⟨List.mem_cons_of_mem d h.1, h.2⟩

theorem head_subRuns_true {p : Char → Bool} {rep : Char} :
    ∀ {l : List Char} {c : Char},
      (subRuns p rep true l).head? = some c → p c = false := by
  intro l
  induction l with
  | nil =>
    intro c h
    simp [subRuns] at h
  | cons d ds ih =>
    intro c h
    by_cases hd : p d = true
    · rw [subRuns_cons_pos_true rep ds hd] at h
      exact ih h
    · rw [subRuns_cons_neg rep true ds (Bool.eq_false_iff.mpr hd)] at h
      simp only [List.head?_cons, Option.some.injEq] at h
      exact h ▸ Bool.eq_false_iff.mpr hd

theorem chain_subRuns (p : Char → Bool) (rep : Char) :
    ∀ (b : Bool) (l : List Char),
      List.Chain' (fun a c => ¬(p a = true ∧ p c = true))
        (subRuns p rep b l) := by
  intro b l
  induction l generalizing b with
  | nil => simp [subRuns]
  | cons d ds ih =>
    by_cases hd : p d = true
    · cases b with
      | true =>
        rw [subRuns_cons_pos_true rep ds hd]
        exact ih true
      | false =>
        rw [subRuns_cons_pos_false rep ds hd, List.chain'_cons']
        refine ⟨?_, ih true⟩
        intro y hy
        have hpy : p y = false := head_subRuns_true hy
        intro hco
        rw [hpy] at hco
        exact Bool.false_ne_true hco.2
    · rw [subRuns_cons_neg rep b ds (Bool.eq_false_iff.mpr hd),
        List.chain'_cons']
      refine ⟨?_, ih false⟩
      intro y _ hco
      exact hd hco.1

theorem subRuns_eq_of_none {p : Char → Bool} {rep : Char} :
    ∀ (b : Bool) (l : List Char), (∀ c ∈ l, p c = false) →
      subRuns p rep b l = l := by
  intro b l
  induction l generalizing b with
  | nil => intro _; rfl
  | cons d ds ih =>
    intro h
    have hd : p d = false := h d (List.mem_cons_self _ _)
    rw [subRuns_cons_neg rep b ds hd,
      ih false (fun c hc => h c (List.mem_cons_of_mem d hc))]

theorem subRuns_id_of_cleaned {p : Char → Bool} {rep : Char} :
    ∀ (l : List Char),
      (∀ c ∈ l, p c = true → c = rep) →
      List.Chain' (fun a c => ¬(p a = true ∧ p c = true)) l →
      (subRuns p rep false l = l ∧
        ((∀ c, l.head? = some c → p c = false) →
          subRuns p rep true l = l)) := by
  intro l
  induction l with
  | nil => exact fun _ _ => ⟨rfl, fun _ => rfl⟩
  | cons d ds ih =>
    intro hrep hch
    rw [List.chain'_cons'] at hch
    obtain ⟨hhd, hch'⟩ := hch
    have ihds := ih (fun c hc hpc => hrep c (List.mem_cons_of_mem d hc) hpc)
      hch'
    constructor
    · by_cases hd : p d = true
      · have hdr : d = rep := hrep d (List.mem_cons_self _ _) hd
        have hds : subRuns p rep true ds = ds := by
          apply ihds.2
          intro c hc
          have hrel := hhd c hc
          cases hpc : p c
          · rfl
          · exact absurd ⟨hd, hpc⟩ hrel
        rw [subRuns_cons_pos_false rep ds hd, hds, ← hdr]
      · rw [subRuns_cons_neg rep false ds (Bool.eq_false_iff.mpr hd),
          ihds.1]
    · intro hhead
      have hd : p d = false := hhead d rfl
      rw [subRuns_cons_neg rep true ds hd, ihds.1]

theorem head_dropWhile_false {p : Char → Bool} :
    ∀ {l : List Char} {c : Char},
      (l.dropWhile p).head? = some c → p c = false := by
  intro l
  induction l with
  | nil =>
    intro c h
    simp [List.dropWhile] at h
  | cons d ds ih =>
    intro c h
    by_cases hd : p d = true
    · rw [List.dropWhile_cons_of_pos hd] at h
      exact ih h
    · rw [List.dropWhile_cons_of_neg hd] at h
      simp only [List.head?_cons, Option.some.injEq] at h
      exact h ▸ Bool.eq_false_iff.mpr hd

theorem dropWhile_eq_self_of_head {p : Char → Bool} {l : List Char}
    (h : ∀ c, l.head? = some c → p c = false) : l.dropWhile p = l := by
  cases l with
  | nil => rfl
  | cons d ds =>
    have hd : p d = false := h d rfl
    exact List.dropWhile_cons_of_neg (by simp [hd])

theorem getLast_dropWhile_of_ne_nil {p : Char → Bool} :
    ∀ (l : List Char), l.dropWhile p ≠ [] →
      (l.dropWhile p).getLast? = l.getLast? := by
  intro l
  induction l with
  | nil => intro h; exact absurd rfl h
  | cons d ds ih =>
    intro h
    by_cases hd : p d = true
    · rw [List.dropWhile_cons_of_pos hd] at h ⊢
      rw [ih h]
      have hds : ds ≠ [] := by
        intro heq
        rw [heq] at h
        exact h rfl
      have : d :: ds = [d] ++ ds := rfl
      rw [this, List.getLast?_append_of_ne_nil [d] hds]
    · rw [List.dropWhile_cons_of_neg hd]

theorem mem_stripChars {l : List Char} {c : Char}
    (h : c ∈ stripChars l) : c ∈ l := by
  unfold stripChars at h
  rw [List.mem_reverse] at h
  have h1 := (List.dropWhile_sublist _).mem h
  rw [List.mem_reverse] at h1
  exact (List.dropWhile_sublist _).mem h1

theorem chain_stripChars {l : List Char}
    (h : List.Chain' (fun a b => ¬(isSpace a = true ∧ isSpace b = true))
      l) :
    List.Chain' (fun a b => ¬(isSpace a = true ∧ isSpace b = true))
      (stripChars l) := by
  have hsymm : ∀ (m : List Char),
      List.Chain' (fun a b => ¬(isSpace a = true ∧ isSpace b = true)) m →
      List.Chain' (fun a b => ¬(isSpace a = true ∧ isSpace b = true))
        m.reverse := by
    intro m hm
    rw [List.chain'_reverse]
    exact hm.imp (fun a b hab => fun hco => hab ⟨hco.2, hco.1⟩)
  unfold stripChars
  apply hsymm
  exact (hsymm _ (h.suffix (List.dropWhile_suffix _))).suffix
    (List.dropWhile_suffix _)

theorem head_stripChars {l : List Char} {c : Char}
    (h : (stripChars l).head? = some c) : isSpace c = false := by
  unfold stripChars at h
  rw [List.head?_reverse] at h
  rcases hm : ((l.dropWhile isSpace).reverse.dropWhile isSpace) with
    _ | ⟨d, ds⟩
  · rw [hm] at h
    simp at h
  · have hne : (l.dropWhile isSpace).reverse.dropWhile isSpace ≠ [] := by
      rw [hm]; exact List.cons_ne_nil d ds
    rw [getLast_dropWhile_of_ne_nil _ hne, List.getLast?_reverse] at h
    exact head_dropWhile_false h

theorem getLast_stripChars {l : List Char} {c : Char}
    (h : (stripChars l).getLast? = some c) : isSpace c = false := by
  unfold stripChars at h
  rw [List.getLast?_reverse] at h
  exact head_dropWhile_false h

theorem stripChars_id {l : List Char}
    (hh : ∀ c, l.head? = some c → isSpace c = false)
    (hl : ∀ c, l.getLast? = some c → isSpace c = false) :
    stripChars l = l := by
  unfold stripChars
  rw [dropWhile_eq_self_of_head hh]
  rw [dropWhile_eq_self_of_head (by
    intro c hc
    rw [List.head?_reverse] at hc
    exact hl c hc)]
  exact List.reverse_reverse l

theorem spaces_single_subRuns {l : List Char} {c : Char}
    (h : c ∈ subRuns isSpace ' ' false l) (hsp : isSpace c = true) :
    c = ' ' := by
  rcases mem_subRuns h with h | h
  · exact h
  · rw [h.2] at hsp
    exact absurd hsp (by simp)

theorem no_newline_subRuns {l : List Char} {c : Char}
    (hc : c ∈ subRuns isSpace ' ' false l) :
    decide (c = '\n') = false := by
  cases hcn : decide (c = '\n')
  · rfl
  · have h : c = '\n' := of_decide_eq_true hcn
    have := spaces_single_subRuns hc (by rw [h]; rfl)
    rw [h] at this
    exact absurd this (by decide)

/-- `clean_text` applied to an already-clean string is the identity:
the core of idempotence. -/
theorem clean_text_fixed (r : String) (hr : ¬ r = "")
    (h0 : ∀ c ∈ r.toList, ¬ c = '\x00')
    (h1 : ∀ c ∈ r.toList, isSpace c = true → c = ' ')
    (h2 : List.Chain' (fun a b => ¬(isSpace a = true ∧ isSpace b = true))
      r.toList)
    (h3 : ∀ c, r.toList.head? = some c → isSpace c = false)
    (h4 : ∀ c, r.toList.getLast? = some c → isSpace c = false) :
    clean_text r = r := by
  unfold clean_text
  rw [if_neg hr]
  have f1 : r.toList.filter (fun c => ¬ c = '\x00') = r.toList :=
    List.filter_eq_self.mpr (fun c hc => by
      simpa using h0 c hc)
  rw [f1]
  rw [(subRuns_id_of_cleaned r.toList h1 h2).1]
  rw [subRuns_eq_of_none false r.toList (fun c hc => by
    have : ¬ c = '\n' := by
      intro heq
      have := h1 c hc (by rw [heq]; rfl)
      rw [heq] at this
      exact absurd this (by decide)
    simpa using this)]
  rw [stripChars_id h3 h4]
  rfl

/-- C10: `clean_text` is idempotent, and its output contains no NUL
character, no two consecutive whitespace characters, and no leading or
trailing whitespace. -/
theorem clean_text_spec (s : String) :
    clean_text (clean_text s) = clean_text s ∧
    (∀ c ∈ (clean_text s).toList, ¬ c = '\x00') ∧
    List.Chain' (fun a b => ¬(isSpace a = true ∧ isSpace b = true))
      (clean_text s).toList ∧
    (∀ c, (clean_text s).toList.head? = some c → isSpace c = false) ∧
    (∀ c, (clean_text s).toList.getLast? = some c →
      isSpace c = false) := by
  by_cases hs : s = ""
  · subst hs
    exact ⟨rfl, by simp [clean_text], by simp [clean_text],
      by simp [clean_text], by simp [clean_text]⟩
  · have hct : clean_text s = String.mk (stripChars
        (subRuns isSpace ' ' false
          (s.toList.filter (fun c => ¬ c = '\x00')))) := by
      unfold clean_text
      rw [if_neg hs]
      rw [subRuns_eq_of_none false _ (fun c hc => no_newline_subRuns hc)]
    have hlist : (clean_text s).toList = stripChars
        (subRuns isSpace ' ' false
          (s.toList.filter (fun c => ¬ c = '\x00'))) := by
      rw [hct]
      rfl
    have h0 : ∀ c ∈ (clean_text s).toList, ¬ c = '\x00' := by
      intro c hc
      rw [hlist] at hc
      rcases mem_subRuns (mem_stripChars hc) with h | h
      · rw [h]; decide
      · simpa using (List.mem_filter.mp h.1).2
    have h1 : ∀ c ∈ (clean_text s).toList, isSpace c = true → c = ' ' := by
      intro c hc hsp
      rw [hlist] at hc
      exact spaces_single_subRuns (mem_stripChars hc) hsp
    have h2 : List.Chain'
        (fun a b => ¬(isSpace a = true ∧ isSpace b = true))
        (clean_text s).toList := by
      rw [hlist]
      exact chain_stripChars (chain_subRuns isSpace ' ' false _)
    have h3 : ∀ c, (clean_text s).toList.head? = some c →
        isSpace c = false := by
      intro c hc
      rw [hlist] at hc
      exact head_stripChars hc
    have h4 : ∀ c, (clean_text s).toList.getLast? = some c →
        isSpace c = false := by
      intro c hc
      rw [hlist] at hc
      exact getLast_stripChars hc
    refine ⟨?_, h0, h2, h3, h4⟩
    by_cases hr : clean_text s = ""
    · rw [hr]
      rfl
    · exact clean_text_fixed (clean_text s) hr h0 h1 h2 h3 h4

theorem clean_text_spec_witness :
    clean_text (clean_text " a\n\nb ") = clean_text " a\n\nb " ∧
    (∀ c ∈ (clean_text " a\n\nb ").toList, ¬ c = '\x00') ∧
    List.Chain' (fun a b => ¬(isSpace a = true ∧ isSpace b = true))
      (clean_text " a\n\nb ").toList ∧
    (∀ c, (clean_text " a\n\nb ").toList.head? = some c →
      isSpace c = false) ∧
    (∀ c, (clean_text " a\n\nb ").toList.getLast? = some c →
      isSpace c = false) :=
  clean_text_spec " a\n\nb "

end SmartStudy
